import Mathlib

set_option maxRecDepth 400000

/-!
Verification development for the `router` package of aws-sam-local
(`src/router/api.go`): resolution of an AWS::Serverless::Api swagger
definition and extraction of `ServerlessRouterMount` route descriptors.

The Go source is shallowly embedded below.  JSON values decoded by
`encoding/json` into `interface{}` are modelled by the inductive `Json`;
`[]byte` payloads are modelled by `String`; Go `nil` pointers are modelled
by `Option`; fallible operations return `Except String`.
-/

namespace Router

/-- Model of a decoded JSON value (Go `interface{}` as produced by
`encoding/json`: `nil`, `bool`, `float64`, `string`, `[]interface{}`,
`map[string]interface{}`).  Numbers are kept as their source lexeme: no
code in the embedded program inspects numeric values. -/
inductive Json where
  | null : Json
  | bool : Bool → Json
  | num : String → Json
  | str : String → Json
  | arr : List Json → Json
  | obj : List (String × Json) → Json

/-- Lookup of a key in a decoded JSON object (Go map indexing: `m[k]`
yields the value, `none` models an absent key). -/
def jsonLookup (fields : List (String × Json)) (k : String) : Option Json :=
  (fields.find? (fun p => p.1 == k)).map (fun p => p.2)

/-- Insert-or-replace for association lists.  Go maps hold at most one
value per key (a duplicate key in a JSON document overwrites the earlier
one), so object field lists built through `setAssoc` have no duplicate
keys. -/
def setAssoc (fields : List (String × Json)) (k : String) (v : Json) :
    List (String × Json) :=
  match fields with
  | [] => [(k, v)]
  | (k', v') :: rest =>
    if k' == k then (k, v) :: rest else (k', v') :: setAssoc rest k v

/-- Insert-or-replace for the path map built by the document parser. -/
def setAssocP {α : Type} (l : List (String × α)) (k : String) (v : α) :
    List (String × α) :=
  match l with
  | [] => [(k, v)]
  | (k', v') :: rest =>
    if k' == k then (k, v) :: rest else (k', v') :: setAssocP rest k v

/-- Model of Go's `strings.ToLower` (ASCII case mapping, as used on HTTP
verb names and extension keys), written by structural recursion over the
character list so that concrete runs reduce definitionally. -/
def strToLower (s : String) : String :=
  String.mk (s.data.map Char.toLower)

/-- Model of Go's `strings.HasPrefix`, written by structural recursion
over the character lists. -/
def strStartsWith (s pre : String) : Bool :=
  pre.data.isPrefixOf s.data

/-- JSON whitespace skipping. -/
def skipWs : List Char → List Char
  | [] => []
  | c :: cs =>
    if c = ' ' ∨ c = '\t' ∨ c = '\n' ∨ c = '\r' then skipWs cs else c :: cs

/-- Body of a JSON string literal after the opening quote; returns the
decoded characters and the remainder after the closing quote.  `\u`
escapes are not modelled: inputs using them are rejected rather than
mis-parsed (no embedded behaviour depends on them). -/
def parseStringBody : List Char → Option (List Char × List Char)
  | [] => none
  | '"' :: rest => some ([], rest)
  | '\\' :: e :: rest =>
    let c? : Option Char :=
      match e with
      | '"' => some '"'
      | '\\' => some '\\'
      | '/' => some '/'
      | 'n' => some '\n'
      | 't' => some '\t'
      | 'r' => some '\r'
      | 'b' => some (Char.ofNat 8)
      | 'f' => some (Char.ofNat 12)
      | _ => none
    match c? with
    | none => none
    | some c => (parseStringBody rest).map (fun p => (c :: p.1, p.2))
  | c :: rest => (parseStringBody rest).map (fun p => (c :: p.1, p.2))

/-- Characters that may appear in a JSON number lexeme. -/
def isNumChar (c : Char) : Bool :=
  c.isDigit || c = '-' || c = '+' || c = '.' || c = 'e' || c = 'E'

/-- Longest numeric-lexeme span of the input. -/
def spanNum : List Char → List Char × List Char
  | [] => ([], [])
  | c :: cs =>
    if isNumChar c then
      let p := spanNum cs
      (c :: p.1, p.2)
    else ([], c :: cs)

mutual

/-- Fuel-indexed JSON value parser (model of `encoding/json` decoding into
`interface{}`).  Object fields are deduplicated with last-key-wins via
`setAssoc`, as Go maps do. -/
def parseVal : Nat → List Char → Option (Json × List Char)
  | 0, _ => none
  | fuel + 1, cs =>
    match skipWs cs with
    | [] => none
    | '"' :: rest =>
      match parseStringBody rest with
      | none => none
      | some (s, r) => some (Json.str (String.mk s), r)
    | '\x7b' :: rest =>
      match skipWs rest with
      | '\x7d' :: r => some (Json.obj [], r)
      | other => parseMembers fuel other []
    | '[' :: rest =>
      match skipWs rest with
      | ']' :: r => some (Json.arr [], r)
      | other => parseElems fuel other []
    | 't' :: 'r' :: 'u' :: 'e' :: rest => some (Json.bool true, rest)
    | 'f' :: 'a' :: 'l' :: 's' :: 'e' :: rest => some (Json.bool false, rest)
    | 'n' :: 'u' :: 'l' :: 'l' :: rest => some (Json.null, rest)
    | c :: rest =>
      if c.isDigit || c = '-' then
        let p := spanNum (c :: rest)
        some (Json.num (String.mk p.1), p.2)
      else none

/-- Members of a JSON object after the opening brace (non-empty case). -/
def parseMembers : Nat → List Char → List (String × Json) →
    Option (Json × List Char)
  | 0, _, _ => none
  | fuel + 1, cs, acc =>
    match skipWs cs with
    | '"' :: rest =>
      match parseStringBody rest with
      | none => none
      | some (k, r1) =>
        match skipWs r1 with
        | ':' :: r2 =>
          match parseVal fuel r2 with
          | none => none
          | some (v, r3) =>
            match skipWs r3 with
            | ',' :: r4 => parseMembers fuel r4 (setAssoc acc (String.mk k) v)
            | '\x7d' :: r4 => some (Json.obj (setAssoc acc (String.mk k) v), r4)
            | _ => none
        | _ => none
    | _ => none

/-- Elements of a JSON array after the opening bracket (non-empty case). -/
def parseElems : Nat → List Char → List Json → Option (Json × List Char)
  | 0, _, _ => none
  | fuel + 1, cs, acc =>
    match parseVal fuel cs with
    | none => none
    | some (v, r1) =>
      match skipWs r1 with
      | ',' :: r2 => parseElems fuel r2 (acc ++ [v])
      | ']' :: r2 => some (Json.arr (acc ++ [v]), r2)
      | _ => none

end

/-- Top-level JSON decode (model of `json.Unmarshal` producing an
`interface{}` value): the whole input must be one value plus trailing
whitespace. -/
def Json.parse (s : String) : Except String Json :=
  match parseVal (2 * s.length + 2) s.data with
  | none => Except.error "unexpected end of JSON input"
  | some (j, rest) =>
    if skipWs rest = [] then Except.ok j
    else Except.error "invalid character after top-level value"

/-- JSON string escaping used by the renderer. -/
def escapeJsonChar (c : Char) : String :=
  if c = '"' then "\\\""
  else if c = '\\' then "\\\\"
  else if c = '\n' then "\\n"
  else if c = '\t' then "\\t"
  else if c = '\r' then "\\r"
  else String.mk [c]

/-- JSON string escaping used by the renderer. -/
def escapeJsonString (s : String) : String :=
  String.join (s.data.map escapeJsonChar)

mutual

/-- Serialization of a decoded JSON value back to text (model of
`json.Marshal` on an `interface{}` decoded from JSON, which always
succeeds on such values). -/
def Json.render : Json → String
  | Json.null => "null"
  | Json.bool b => if b then "true" else "false"
  | Json.num l => l
  | Json.str s => "\"" ++ escapeJsonString s ++ "\""
  | Json.arr es => "[" ++ Json.renderElems es ++ "]"
  | Json.obj fs => "\x7b" ++ Json.renderFields fs ++ "\x7d"

/-- Comma-separated rendering of array elements. -/
def Json.renderElems : List Json → String
  | [] => ""
  | [e] => Json.render e
  | e :: rest => Json.render e ++ "," ++ Json.renderElems rest

/-- Comma-separated rendering of object fields. -/
def Json.renderFields : List (String × Json) → String
  | [] => ""
  | [(k, v)] => "\"" ++ escapeJsonString k ++ "\":" ++ Json.render v
  | (k, v) :: rest =>
    "\"" ++ escapeJsonString k ++ "\":" ++ Json.render v ++ "," ++
      Json.renderFields rest

end

/-!
## The parsed swagger document (external `go-openapi/spec` collaborator)

The document parser is an out-of-scope collaborator of this repository
(spec §4.2).  It is modelled faithfully to the Go types the embedded code
touches: `spec.Swagger.Paths` is a `*spec.Paths` (hence `Option` here: it
stays `nil` when the document has no `paths` key), `spec.Paths.Paths` is a
`map[string]spec.PathItem`, a `spec.PathItem` holds one optional operation
per HTTP verb plus vendor extensions, and vendor extensions are the
lowercased `x-` keys of the enclosing JSON object.
-/

/-- Model of `spec.Operation` restricted to what `Mounts` reads: the
vendor-extension map.  The marshal/unmarshal round trip that `Mounts`
performs on an operation (lines 62–66 of `api.go`) preserves exactly this
data, so operation lookup is modelled as returning the operation
directly. -/
structure Operation where
  extensions : List (String × Json)

/-- Model of `spec.PathItem`: one optional `*spec.Operation` per supported
verb, plus the path-level vendor extensions. -/
structure PathItem where
  get : Option Operation
  put : Option Operation
  post : Option Operation
  delete : Option Operation
  options : Option Operation
  head : Option Operation
  patch : Option Operation
  extensions : List (String × Json)

/-- Model of `spec.Paths`: the path-template → path-item map (its own
vendor extensions are never read by the embedded code and are omitted). -/
structure SwaggerPaths where
  paths : List (String × PathItem)

/-- Model of `spec.Swagger` restricted to what `Mounts` reads.  `paths`
is an `Option` because the Go field is a `*spec.Paths` pointer. -/
structure SwaggerDocument where
  paths : Option SwaggerPaths

/-- Vendor-extension collection of `spec.VendorExtensible.UnmarshalJSON`:
keys whose lowercase form starts with `x-` are kept, stored lowercased. -/
def vendorExtensions (fields : List (String × Json)) : List (String × Json) :=
  fields.foldl
    (fun acc kv =>
      if strStartsWith (strToLower kv.1) "x-" then setAssoc acc (strToLower kv.1) kv.2
      else acc)
    []

/-- Decoding of one `*spec.Operation` field of a path item: an absent or
null value leaves the pointer nil; an object decodes to an operation; any
other value is a decode error. -/
def methodFieldOfJson : Option Json → Except String (Option Operation)
  | none => Except.ok none
  | some Json.null => Except.ok none
  | some (Json.obj fields) => Except.ok (some ⟨vendorExtensions fields⟩)
  | some _ => Except.error "cannot unmarshal value into Operation"

/-- Decoding of `spec.PathItem.UnmarshalJSON`. -/
def pathItemOfJson : Json → Except String PathItem
  | Json.null => Except.ok ⟨none, none, none, none, none, none, none, []⟩
  | Json.obj fields => do
    let g ← methodFieldOfJson (jsonLookup fields "get")
    let pu ← methodFieldOfJson (jsonLookup fields "put")
    let po ← methodFieldOfJson (jsonLookup fields "post")
    let d ← methodFieldOfJson (jsonLookup fields "delete")
    let o ← methodFieldOfJson (jsonLookup fields "options")
    let h ← methodFieldOfJson (jsonLookup fields "head")
    let pa ← methodFieldOfJson (jsonLookup fields "patch")
    Except.ok ⟨g, pu, po, d, o, h, pa, vendorExtensions fields⟩
  | _ => Except.error "cannot unmarshal value into PathItem"

/-- Decoding of the members of the `paths` object
(`spec.Paths.UnmarshalJSON`): keys starting with `/` decode to path items
(collected into a map), other keys are ignored; a path item that fails to
decode fails the whole parse. -/
def pathsOfFields : List (String × Json) → List (String × PathItem) →
    Except String (List (String × PathItem))
  | [], acc => Except.ok acc
  | (k, v) :: rest, acc =>
    if strStartsWith k "/" then
      match pathItemOfJson v with
      | Except.error e => Except.error e
      | Except.ok pi => pathsOfFields rest (setAssocP acc k pi)
    else pathsOfFields rest acc

/-- Decoding of the value of the `paths` key (non-null case). -/
def pathsOfJson : Json → Except String SwaggerPaths
  | Json.obj fields => (pathsOfFields fields []).map (fun l => ⟨l⟩)
  | _ => Except.error "cannot unmarshal value into Paths"

/-- Model of `spec.Swagger.UnmarshalJSON`: the document must be a JSON
object (or null); an absent or null `paths` key leaves the `*spec.Paths`
pointer nil. -/
def swaggerUnmarshalJSON (data : String) : Except String SwaggerDocument :=
  match Json.parse data with
  | Except.error e => Except.error e
  | Except.ok Json.null => Except.ok ⟨none⟩
  | Except.ok (Json.obj fields) =>
    match jsonLookup fields "paths" with
    | none => Except.ok ⟨none⟩
    | some Json.null => Except.ok ⟨none⟩
    | some pj => (pathsOfJson pj).map (fun ps => ⟨some ps⟩)
  | Except.ok _ => Except.error "cannot unmarshal value into SwaggerProps"

/-!
## The API resource (external `goformation` collaborator) and I/O model
-/

/-- Model of `cloudformation.AWSServerlessApi_S3Location`. -/
structure AWSServerlessApi_S3Location where
  Bucket : String
  Key : String
  Version : Int

/-- Model of the definition-URI object: a string form and an S3-location
form, each a nilable pointer in Go. -/
structure AWSServerlessApi_DefinitionUri where
  String : Option String
  S3Location : Option AWSServerlessApi_S3Location

/-- Model of `cloudformation.AWSServerlessApi` restricted to the fields
`Swagger` reads.  `DefinitionBody` is a Go `interface{}`: `none` models
nil, and a populated body is an arbitrary decoded value. -/
structure AWSServerlessApi where
  DefinitionUri : Option AWSServerlessApi_DefinitionUri
  DefinitionBody : Option Json

/-- External I/O collaborators: local file reads (`ioutil.ReadFile`) and
object-storage GET (S3 `GetObject` with bucket, key, version, body fully
read). -/
structure Env where
  readFile : String → Except String String
  s3GetObject : String → String → String → Except String String

/-- Go's `string(i)` conversion on an integer: the UTF-8 encoding of the
code point `i`, or the replacement character when `i` is not a valid code
point (used on `loc.Version` in `getSwaggerFromS3Location`). -/
def goStringOfInt (v : Int) : String :=
  if 0 ≤ v ∧ v.toNat.isValidChar then String.mk [Char.ofNat v.toNat]
  else "�"

/-!
## `src/router/api.go`
-/

/-- `const apiGatewayIntegrationExtension` (api.go line 17). -/
def apiGatewayIntegrationExtension : String := "x-amazon-apigateway-integration"

/-- `const apiGatewayAnyMethodExtension` (api.go line 18). -/
def apiGatewayAnyMethodExtension : String := "x-amazon-apigateway-any-method"

/-- Modelled from the spec: `HttpMethods` is declared in the repository's
`router` package outside `src/`.  Spec §6: "Supported HTTP methods:
exactly {GET, POST, PUT, DELETE, PATCH, HEAD, OPTIONS}". -/
def HttpMethods : List String :=
  ["GET", "POST", "PUT", "DELETE", "PATCH", "HEAD", "OPTIONS"]

/-- `ApiGatewayAnyMethod` (api.go lines 22–24): the temporary object the
any-method extension payload is unmarshalled into.  The
`IntegrationSettings interface{}` field is `Json`; JSON null models Go
nil. -/
structure ApiGatewayAnyMethod where
  IntegrationSettings : Json

/-- `json.Unmarshal` of a decoded payload into `ApiGatewayAnyMethod`
(api.go lines 83–93; the preceding `json.Marshal` of a decoded value
always succeeds, so the marshal-error branch at line 84 is unreachable):
an object binds the nested integration key (nil when absent), null is a
no-op, and any other value is a type error. -/
def unmarshalAnyMethod : Json → Except String ApiGatewayAnyMethod
  | Json.null => Except.ok ⟨Json.null⟩
  | Json.obj fields =>
    Except.ok ⟨(jsonLookup fields apiGatewayIntegrationExtension).getD Json.null⟩
  | _ => Except.error "cannot unmarshal value into ApiGatewayAnyMethod"

/-- Modelled from the spec: `ApiGatewayIntegration` is declared in the
repository outside `src/`.  Spec §3: the typed integration descriptor
"holds an optional resolved handler reference (e.g., a function identifier
string)"; it is decoded from the integration payload's nested shape,
here a `uri` string field (empty when absent). -/
structure ApiGatewayIntegration where
  Uri : String

/-- `json.Unmarshal` of a decoded payload into `ApiGatewayIntegration`
(api.go lines 118–124): an object binds the string field (a non-string,
non-null value there is a type error), null is a no-op, and any other
top-level value is a type error. -/
def unmarshalApiGatewayIntegration : Json → Except String ApiGatewayIntegration
  | Json.null => Except.ok ⟨""⟩
  | Json.obj fields =>
    match jsonLookup fields "uri" with
    | none => Except.ok ⟨""⟩
    | some Json.null => Except.ok ⟨""⟩
    | some (Json.str s) => Except.ok ⟨s⟩
    | some _ => Except.error "cannot unmarshal value into string field uri"
  | _ => Except.error "cannot unmarshal value into ApiGatewayIntegration"

/-- Modelled from the spec: `GetFunctionArn` is declared in the repository
outside `src/`.  Spec §4.3: it "extracts the upstream handler reference
from the descriptor's nested integration-settings shape; if absent or
malformed, returns an error". -/
def ApiGatewayIntegration.GetFunctionArn (i : ApiGatewayIntegration) :
    Except String String :=
  if i.Uri = "" then
    Except.error "Integration does not contain a handler reference"
  else Except.ok i.Uri

/-- `parseIntegrationSettings` (api.go lines 111–127): re-marshal the
opaque payload (total on decoded values) and decode it into
`ApiGatewayIntegration`; on a decode error, log and return nil. -/
def parseIntegrationSettings (integrationData : Json) :
    Option ApiGatewayIntegration :=
  match unmarshalApiGatewayIntegration integrationData with
  | Except.error _ => none
  | Except.ok integration => some integration

/-- Modelled from the spec: `ServerlessRouterMount` is declared in the
repository's `router` package outside `src/`.  Spec §3 MountDescriptor:
Name (= path), Path, lowercase Method, and the resolved handler reference
(`IntegrationArn`, a nilable pointer in Go, hence `Option`). -/
structure ServerlessRouterMount where
  Name : String
  Path : String
  Method : String
  IntegrationArn : Option String
deriving DecidableEq

/-- `createMount` (api.go lines 129–149): build the mount from path and
verb; with a nil integration, or when `GetFunctionArn` fails, the handler
reference stays nil (the mount is still returned). -/
def createMount (path : String) (verb : String)
    (integration : Option ApiGatewayIntegration) : ServerlessRouterMount :=
  { Name := path
    Path := path
    Method := verb
    IntegrationArn :=
      match integration with
      | none => none
      | some i =>
        match i.GetFunctionArn with
        | Except.error _ => none
        | Except.ok functionName => some functionName }

/-- `pathItem.JSONLookup(strings.ToLower(method))` (api.go line 59),
which selects the operation pointer field whose JSON tag is the given
lowercase verb.  For the seven supported verbs the Go call returns a nil
error; an unknown token makes it return an error, which the caller treats
exactly like a nil operation (no mount, method not mapped), so both are
`none` here. -/
def pathItemOp (pi : PathItem) (verb : String) : Option Operation :=
  match verb with
  | "get" => pi.get
  | "put" => pi.put
  | "post" => pi.post
  | "delete" => pi.delete
  | "options" => pi.options
  | "head" => pi.head
  | "patch" => pi.patch
  | _ => none

/-- One iteration of the per-method pass of `Mounts` (api.go lines
57–77): a present operation whose integration extension is non-nil yields
a mount (and marks the method mapped); otherwise nothing.  The
marshal/unmarshal round trip on the operation is the identity on the
extension data (see `Operation`). -/
def methodMount (path : String) (pi : PathItem) (method : String) :
    Option ServerlessRouterMount :=
  match pathItemOp pi (strToLower method) with
  | none => none
  | some operation =>
    match jsonLookup operation.extensions apiGatewayIntegrationExtension with
    | none => none
    | some Json.null => none
    | some integration =>
      some (createMount path (strToLower method) (parseIntegrationSettings integration))

/-- The mounts appended by the per-method pass for one path, in
`HttpMethods` order. -/
def explicitMounts (path : String) (pi : PathItem) :
    List ServerlessRouterMount :=
  HttpMethods.filterMap (methodMount path pi)

/-- The any-method pass for one path (api.go lines 80–103): when the
path-level extension key is present, its payload is unmarshalled into
`ApiGatewayAnyMethod` (failure aborts `Mounts` with an error), then one
mount is created for every supported method not mapped by the per-method
pass. -/
def anyMethodMounts (path : String) (pi : PathItem) :
    Except String (List ServerlessRouterMount) :=
  match jsonLookup pi.extensions apiGatewayAnyMethodExtension with
  | none => Except.ok []
  | some anyMethod =>
    match unmarshalAnyMethod anyMethod with
    | Except.error _ =>
      Except.error "Could not unmarshal any method josn to object model"
    | Except.ok anyMethodObject =>
      Except.ok
        ((HttpMethods.filter (fun m => (methodMount path pi m).isNone)).map
          (fun m =>
            createMount path (strToLower m)
              (parseIntegrationSettings anyMethodObject.IntegrationSettings)))

/-- All mounts contributed by one path: the per-method pass followed by
the any-method pass. -/
def pathMounts (path : String) (pi : PathItem) :
    Except String (List ServerlessRouterMount) :=
  match anyMethodMounts path pi with
  | Except.error e => Except.error e
  | Except.ok wildcard => Except.ok (explicitMounts path pi ++ wildcard)

/-- The path loop of `Mounts` (api.go lines 51–104): mounts of all paths
concatenated; the first any-method unmarshal failure aborts with an
error. -/
def extractMounts : List (String × PathItem) →
    Except String (List ServerlessRouterMount)
  | [] => Except.ok []
  | (path, pi) :: rest =>
    match pathMounts path pi with
    | Except.error e => Except.error e
    | Except.ok ms =>
      match extractMounts rest with
      | Except.error e => Except.error e
      | Except.ok more => Except.ok (ms ++ more)

/-- `getSwaggerFromURI` (api.go lines 190–196). -/
def getSwaggerFromURI (env : Env) (uri : String) : Except String String :=
  match env.readFile uri with
  | Except.error e =>
    Except.error ("Cannot read local Swagger definition (" ++ uri ++ "): " ++ e)
  | Except.ok data => Except.ok data

/-- `getSwaggerFromS3Location` (api.go lines 198–221). -/
def getSwaggerFromS3Location (env : Env)
    (loc : AWSServerlessApi_S3Location) : Except String String :=
  match env.s3GetObject loc.Bucket loc.Key (goStringOfInt loc.Version) with
  | Except.error e =>
    Except.error ("Error while fetching Swagger template from S3: " ++
      loc.Bucket ++ loc.Key ++ "\n" ++ e)
  | Except.ok body => Except.ok body

/-- `getSwaggerFromString` (api.go lines 223–225). -/
def getSwaggerFromString (input : String) : Except String String :=
  Except.ok input

/-- `getSwaggerFromMap` (api.go lines 227–229): `json.Marshal` of the
decoded mapping, which is total on decoded values. -/
def getSwaggerFromMap (input : List (String × Json)) : Except String String :=
  Except.ok (Json.render (Json.obj input))

/-- `Swagger` (api.go lines 153–188): the four definition sources checked
in order — definition URI as string, definition URI as S3 location,
definition body as string, definition body as string-keyed mapping — with
a "no swagger definition found" error when none applies. -/
def AWSServerlessApi.Swagger (api : AWSServerlessApi) (env : Env) :
    Except String String :=
  match api.DefinitionUri with
  | some du =>
    match du.String with
    | some uri => getSwaggerFromURI env uri
    | none =>
      match du.S3Location with
      | some loc => getSwaggerFromS3Location env loc
      | none =>
        match api.DefinitionBody with
        | some (Json.str val) => getSwaggerFromString val
        | some (Json.obj val) => getSwaggerFromMap val
        | _ => Except.error "no swagger definition found"
  | none =>
    match api.DefinitionBody with
    | some (Json.str val) => getSwaggerFromString val
    | some (Json.obj val) => getSwaggerFromMap val
    | _ => Except.error "no swagger definition found"

/-- Outcome of a `Mounts` call: a Go runtime panic, an error return, or a
mount list. -/
inductive MountsResult where
  | crash : String → MountsResult
  | err : String → MountsResult
  | ok : List ServerlessRouterMount → MountsResult
deriving DecidableEq

/-- `Mounts` (api.go lines 35–107): resolve the definition bytes, parse
them, then range over `swagger.Paths.Paths`.  `swagger.Paths` is a
`*spec.Paths` dereferenced without a nil check at line 51, so a
successfully parsed document with no `paths` key makes the Go code panic;
that outcome is `MountsResult.crash`. -/
def AWSServerlessApi.Mounts (api : AWSServerlessApi) (env : Env) :
    MountsResult :=
  match api.Swagger env with
  | Except.error e => MountsResult.err e
  | Except.ok jsonDefinition =>
    match swaggerUnmarshalJSON jsonDefinition with
    | Except.error e =>
      MountsResult.err ("Cannot parse Swagger definition: " ++ e)
    | Except.ok swagger =>
      match swagger.paths with
      | none =>
        MountsResult.crash
          "runtime error: invalid memory address or nil pointer dereference"
      | some p =>
        match extractMounts p.paths with
        | Except.error e => MountsResult.err e
        | Except.ok mounts => MountsResult.ok mounts

/-!
## General lemmas about the embedded definitions
-/

theorem createMount_Path (path verb : String)
    (i : Option ApiGatewayIntegration) : (createMount path verb i).Path = path :=
  rfl

theorem createMount_Method (path verb : String)
    (i : Option ApiGatewayIntegration) : (createMount path verb i).Method = verb :=
  rfl

theorem methodMount_eq_some {path : String} {pi : PathItem} {m : String}
    {w : ServerlessRouterMount} (h : methodMount path pi m = some w) :
    w.Path = path ∧ w.Method = strToLower m := by
  unfold methodMount at h
  split at h
  · exact absurd h (by simp)
  · split at h
    · exact absurd h (by simp)
    · exact absurd h (by simp)
    · rw [Option.some.injEq] at h
      subst h
      exact ⟨rfl, rfl⟩

theorem methodMount_none {path : String} {pi : PathItem} {m : String}
    {op : Operation} (hop : pathItemOp pi (strToLower m) = some op)
    (hext : jsonLookup op.extensions apiGatewayIntegrationExtension = none ∨
      jsonLookup op.extensions apiGatewayIntegrationExtension = some Json.null) :
    methodMount path pi m = none := by
  cases hext with
  | inl h => simp only [methodMount, hop, h]
  | inr h => simp only [methodMount, hop, h]

theorem methodMount_some_of_ext {path : String} {pi : PathItem} {m : String}
    {op : Operation} {payload : Json}
    (hop : pathItemOp pi (strToLower m) = some op)
    (hext : jsonLookup op.extensions apiGatewayIntegrationExtension = some payload)
    (hnn : payload ≠ Json.null) :
    methodMount path pi m =
      some (createMount path (strToLower m) (parseIntegrationSettings payload)) := by
  simp only [methodMount, hop, hext]

theorem length_filterMap_add_none {α β : Type} (f : α → Option β) :
    ∀ l : List α, (l.filterMap f).length +
      (l.filter (fun a => (f a).isNone)).length = l.length := by
  intro l
  induction l with
  | nil => rfl
  | cons a t ih =>
    cases h : f a with
    | none =>
      simp only [List.filterMap_cons, h, List.filter_cons, Option.isNone_none,
        if_pos, List.length_cons]
      omega
    | some b =>
      simp only [List.filterMap_cons, h, List.filter_cons, Option.isNone_some,
        if_neg, List.length_cons, Bool.false_eq_true, ite_false]
      omega

theorem assoc_unique {α : Type} :
    ∀ {l : List (String × α)}, (l.map Prod.fst).Nodup →
      ∀ {k : String} {a b : α}, (k, a) ∈ l → (k, b) ∈ l → a = b := by
  intro l
  induction l with
  | nil => intro _ k a b ha _; cases ha
  | cons hd tl ih =>
    intro hnd k a b ha hb
    obtain ⟨k', v'⟩ := hd
    simp only [List.map_cons, List.nodup_cons] at hnd
    cases List.mem_cons.mp ha with
    | inl h1 =>
      cases List.mem_cons.mp hb with
      | inl h2 =>
        rw [Prod.mk.injEq] at h1 h2
        rw [h1.2, h2.2]
      | inr h2 =>
        rw [Prod.mk.injEq] at h1
        exact absurd (h1.1 ▸ List.mem_map_of_mem Prod.fst h2) hnd.1
    | inr h1 =>
      cases List.mem_cons.mp hb with
      | inl h2 =>
        rw [Prod.mk.injEq] at h2
        exact absurd (h2.1 ▸ List.mem_map_of_mem Prod.fst h1) hnd.1
      | inr h2 => exact ih hnd.2 h1 h2

theorem anyMethodMounts_none {path : String} {pi : PathItem}
    (hany : jsonLookup pi.extensions apiGatewayAnyMethodExtension = none) :
    anyMethodMounts path pi = Except.ok [] := by
  simp only [anyMethodMounts, hany]

theorem anyMethodMounts_ok_shape {path : String} {pi : PathItem}
    {payload : Json} {ws : List ServerlessRouterMount}
    (hany : jsonLookup pi.extensions apiGatewayAnyMethodExtension = some payload)
    (h : anyMethodMounts path pi = Except.ok ws) :
    ∃ amo, unmarshalAnyMethod payload = Except.ok amo ∧
      ws = (HttpMethods.filter (fun m => (methodMount path pi m).isNone)).map
        (fun m => createMount path (strToLower m)
          (parseIntegrationSettings amo.IntegrationSettings)) := by
  cases ha : unmarshalAnyMethod payload with
  | error e =>
    simp only [anyMethodMounts, hany, ha] at h
    cases h
  | ok amo =>
    simp only [anyMethodMounts, hany, ha, Except.ok.injEq] at h
    exact ⟨amo, rfl, h.symm⟩

theorem anyMethodMounts_error_msg {path : String} {pi : PathItem} {e : String}
    (h : anyMethodMounts path pi = Except.error e) :
    e = "Could not unmarshal any method josn to object model" := by
  unfold anyMethodMounts at h
  split at h
  · cases h
  · split at h
    · rw [Except.error.injEq] at h
      exact h.symm
    · cases h

theorem pathMounts_error_msg {path : String} {pi : PathItem} {e : String}
    (h : pathMounts path pi = Except.error e) :
    e = "Could not unmarshal any method josn to object model" := by
  cases ha : anyMethodMounts path pi with
  | error e' =>
    simp only [pathMounts, ha, Except.error.injEq] at h
    rw [← h]
    exact anyMethodMounts_error_msg ha
  | ok ws =>
    simp only [pathMounts, ha] at h
    cases h

theorem pathMounts_ok_elim {path : String} {pi : PathItem}
    {ws : List ServerlessRouterMount} (h : pathMounts path pi = Except.ok ws) :
    ∃ wild, anyMethodMounts path pi = Except.ok wild ∧
      ws = explicitMounts path pi ++ wild := by
  cases ha : anyMethodMounts path pi with
  | error e =>
    simp only [pathMounts, ha] at h
    cases h
  | ok wild =>
    simp only [pathMounts, ha, Except.ok.injEq] at h
    exact ⟨wild, rfl, h.symm⟩

theorem extractMounts_ok_of_mem :
    ∀ {ps : List (String × PathItem)} {ms : List ServerlessRouterMount},
      extractMounts ps = Except.ok ms →
      ∀ {path : String} {pi : PathItem}, (path, pi) ∈ ps →
        ∃ ws, pathMounts path pi = Except.ok ws ∧ ∀ w ∈ ws, w ∈ ms := by
  intro ps
  induction ps with
  | nil =>
    intro ms _ path pi hmem
    cases hmem
  | cons hd tl ih =>
    intro ms hok path pi hmem
    obtain ⟨q, qi⟩ := hd
    cases hpm : pathMounts q qi with
    | error e =>
      simp only [extractMounts, hpm] at hok
      cases hok
    | ok ws =>
      cases hrest : extractMounts tl with
      | error e =>
        simp only [extractMounts, hpm, hrest] at hok
        cases hok
      | ok more =>
        simp only [extractMounts, hpm, hrest, Except.ok.injEq] at hok
        subst hok
        cases List.mem_cons.mp hmem with
        | inl h =>
          rw [Prod.mk.injEq] at h
          obtain ⟨h1, h2⟩ := h
          subst h1
          subst h2
          exact ⟨ws, hpm, fun w hw => List.mem_append_left more hw⟩
        | inr h =>
          obtain ⟨ws', h1, h2⟩ := ih hrest h
          exact ⟨ws', h1, fun w hw => List.mem_append_right ws (h2 w hw)⟩

theorem mem_extractMounts_ok :
    ∀ {ps : List (String × PathItem)} {ms : List ServerlessRouterMount},
      extractMounts ps = Except.ok ms →
      ∀ {w : ServerlessRouterMount}, w ∈ ms →
        ∃ q qi ws, (q, qi) ∈ ps ∧ pathMounts q qi = Except.ok ws ∧ w ∈ ws := by
  intro ps
  induction ps with
  | nil =>
    intro ms hok w hw
    simp only [extractMounts, Except.ok.injEq] at hok
    subst hok
    cases hw
  | cons hd tl ih =>
    intro ms hok w hw
    obtain ⟨q, qi⟩ := hd
    cases hpm : pathMounts q qi with
    | error e =>
      simp only [extractMounts, hpm] at hok
      cases hok
    | ok ws =>
      cases hrest : extractMounts tl with
      | error e =>
        simp only [extractMounts, hpm, hrest] at hok
        cases hok
      | ok more =>
        simp only [extractMounts, hpm, hrest, Except.ok.injEq] at hok
        subst hok
        cases List.mem_append.mp hw with
        | inl h => exact ⟨q, qi, ws, List.mem_cons_self _ _, hpm, h⟩
        | inr h =>
          obtain ⟨q', qi', ws', hmem', hpm', hw'⟩ := ih hrest h
          exact ⟨q', qi', ws', List.mem_cons_of_mem _ hmem', hpm', hw'⟩

theorem extractMounts_error_of_bad :
    ∀ {ps : List (String × PathItem)} {path : String} {pi : PathItem}
      {payload : Json} {em : String},
      (path, pi) ∈ ps →
      jsonLookup pi.extensions apiGatewayAnyMethodExtension = some payload →
      unmarshalAnyMethod payload = Except.error em →
      extractMounts ps =
        Except.error "Could not unmarshal any method josn to object model" := by
  intro ps
  induction ps with
  | nil =>
    intro path pi payload em hmem _ _
    cases hmem
  | cons hd tl ih =>
    intro path pi payload em hmem hany hbad
    obtain ⟨q, qi⟩ := hd
    cases List.mem_cons.mp hmem with
    | inl h =>
      rw [Prod.mk.injEq] at h
      obtain ⟨h1, h2⟩ := h
      subst h1
      subst h2
      have hpm : pathMounts path pi =
          Except.error "Could not unmarshal any method josn to object model" := by
        simp only [pathMounts, anyMethodMounts, hany, hbad]
      simp only [extractMounts, hpm]
    | inr h =>
      have htl := ih h hany hbad
      cases hpm : pathMounts q qi with
      | error e =>
        have he := pathMounts_error_msg hpm
        simp only [extractMounts, hpm, he]
      | ok ws => simp only [extractMounts, hpm, htl]

theorem strToLower_inj_on_HttpMethods :
    ∀ m1 ∈ HttpMethods, ∀ m2 ∈ HttpMethods,
      strToLower m1 = strToLower m2 → m1 = m2 := by decide

theorem map_strToLower_HttpMethods_nodup :
    (HttpMethods.map strToLower).Nodup := by decide

theorem map_method_filterMap (path : String) (pi : PathItem) :
    ∀ l : List String,
      (l.filterMap (methodMount path pi)).map (fun w => w.Method) =
        (l.filter (fun m => (methodMount path pi m).isSome)).map strToLower := by
  intro l
  induction l with
  | nil => rfl
  | cons a t ih =>
    cases h : methodMount path pi a with
    | none => simp [List.filterMap_cons, List.filter_cons, h, ih]
    | some w =>
      simp [List.filterMap_cons, List.filter_cons, h, ih,
        (methodMount_eq_some h).2]

theorem map_method_wild (path : String) (pi : PathItem) (j : Json) :
    ((HttpMethods.filter (fun m => (methodMount path pi m).isNone)).map
        (fun m => createMount path (strToLower m)
          (parseIntegrationSettings j))).map (fun w => w.Method) =
      (HttpMethods.filter (fun m => (methodMount path pi m).isNone)).map
        strToLower := by
  rw [List.map_map]
  rfl

theorem filter_isNone_eq (path : String) (pi : PathItem) (l : List String) :
    l.filter (fun m => (methodMount path pi m).isNone) =
      l.filter (fun m => !(methodMount path pi m).isSome) := by
  apply List.filter_congr
  intro m _
  cases methodMount path pi m <;> rfl

theorem methods_nodup {path : String} {pi : PathItem}
    {wild : List ServerlessRouterMount}
    (hwild : anyMethodMounts path pi = Except.ok wild) :
    ((explicitMounts path pi ++ wild).map (fun w => w.Method)).Nodup := by
  rw [List.map_append, explicitMounts, map_method_filterMap]
  cases hany : jsonLookup pi.extensions apiGatewayAnyMethodExtension with
  | none =>
    have hnil : wild = [] := by
      rw [anyMethodMounts_none hany, Except.ok.injEq] at hwild
      exact hwild.symm
    subst hnil
    simp only [List.map_nil, List.append_nil]
    exact ((List.filter_sublist HttpMethods).map strToLower).nodup
      map_strToLower_HttpMethods_nodup
  | some payload =>
    obtain ⟨amo, _, hshape⟩ := anyMethodMounts_ok_shape hany hwild
    subst hshape
    rw [map_method_wild, filter_isNone_eq, ← List.map_append]
    exact ((List.filter_append_perm
        (fun m => (methodMount path pi m).isSome) HttpMethods).map
        strToLower).nodup_iff.mpr map_strToLower_HttpMethods_nodup

theorem pathMounts_ok_props {path : String} {pi : PathItem}
    {ws : List ServerlessRouterMount} (h : pathMounts path pi = Except.ok ws) :
    (∀ w ∈ ws, w.Path = path) ∧ (ws.map (fun w => w.Method)).Nodup := by
  obtain ⟨wild, hwild, hws⟩ := pathMounts_ok_elim h
  subst hws
  constructor
  · intro w hw
    cases List.mem_append.mp hw with
    | inl hw =>
      obtain ⟨m, _, hmm⟩ := List.mem_filterMap.mp hw
      exact (methodMount_eq_some hmm).1
    | inr hw =>
      cases hany : jsonLookup pi.extensions apiGatewayAnyMethodExtension with
      | none =>
        rw [anyMethodMounts_none hany, Except.ok.injEq] at hwild
        rw [← hwild] at hw
        cases hw
      | some payload =>
        obtain ⟨amo, _, hshape⟩ := anyMethodMounts_ok_shape hany hwild
        subst hshape
        obtain ⟨m, _, hm⟩ := List.mem_map.mp hw
        rw [← hm]
        rfl
  · exact methods_nodup hwild

theorem pathMounts_pairwise {path : String} {pi : PathItem}
    {ws : List ServerlessRouterMount} (h : pathMounts path pi = Except.ok ws) :
    List.Pairwise (fun a b => ¬(a.Path = b.Path ∧ a.Method = b.Method)) ws := by
  have hnd := (pathMounts_ok_props h).2
  have hpw : List.Pairwise (fun a b => a.Method ≠ b.Method) ws :=
    List.pairwise_map.mp hnd
  exact hpw.imp (fun hne hc => hne hc.2)

theorem extractMounts_pairwise :
    ∀ {ps : List (String × PathItem)} {ms : List ServerlessRouterMount},
      (ps.map Prod.fst).Nodup → extractMounts ps = Except.ok ms →
      List.Pairwise (fun a b => ¬(a.Path = b.Path ∧ a.Method = b.Method)) ms := by
  intro ps
  induction ps with
  | nil =>
    intro ms _ hok
    simp only [extractMounts, Except.ok.injEq] at hok
    subst hok
    exact List.Pairwise.nil
  | cons hd tl ih =>
    intro ms hnd hok
    obtain ⟨q, qi⟩ := hd
    simp only [List.map_cons, List.nodup_cons] at hnd
    cases hpm : pathMounts q qi with
    | error e =>
      simp only [extractMounts, hpm] at hok
      cases hok
    | ok ws =>
      cases hrest : extractMounts tl with
      | error e =>
        simp only [extractMounts, hpm, hrest] at hok
        cases hok
      | ok more =>
        simp only [extractMounts, hpm, hrest, Except.ok.injEq] at hok
        subst hok
        apply List.pairwise_append.mpr
        refine ⟨pathMounts_pairwise hpm, ih hnd.2 hrest, ?_⟩
        intro a ha b hb
        have haP : a.Path = q := (pathMounts_ok_props hpm).1 a ha
        obtain ⟨q', qi', ws', hmem', hpm', hb'⟩ := mem_extractMounts_ok hrest hb
        have hbP : b.Path = q' := (pathMounts_ok_props hpm').1 b hb'
        intro hc
        apply hnd.1
        have hqq : q = q' := by rw [← haP, hc.1, hbP]
        rw [hqq]
        exact List.mem_map_of_mem Prod.fst hmem'

theorem setAssocP_keys {α : Type} (k : String) (v : α) :
    ∀ l : List (String × α), (l.map Prod.fst).Nodup →
      ((setAssocP l k v).map Prod.fst).Nodup ∧
      ∀ x ∈ (setAssocP l k v).map Prod.fst, x ∈ l.map Prod.fst ∨ x = k := by
  intro l
  induction l with
  | nil =>
    intro _
    refine ⟨by simp [setAssocP], ?_⟩
    intro x hx
    simp only [setAssocP, List.map_cons, List.map_nil, List.mem_singleton] at hx
    exact Or.inr hx
  | cons hd tl ih =>
    obtain ⟨k', v'⟩ := hd
    intro hnd
    simp only [List.map_cons, List.nodup_cons] at hnd
    by_cases hk : k' = k
    · subst hk
      simp only [setAssocP, beq_self_eq_true, if_true]
      constructor
      · simp only [List.map_cons, List.nodup_cons]
        exact hnd
      · intro x hx
        exact Or.inl hx
    · have hkb : (k' == k) = false := beq_eq_false_iff_ne.mpr hk
      obtain ⟨ihnd, ihmem⟩ := ih hnd.2
      simp only [setAssocP, hkb, Bool.false_eq_true, if_false]
      constructor
      · simp only [List.map_cons, List.nodup_cons]
        refine ⟨?_, ihnd⟩
        intro hx
        cases ihmem k' hx with
        | inl h => exact hnd.1 h
        | inr h => exact hk h
      · intro x hx
        simp only [List.map_cons, List.mem_cons] at hx
        cases hx with
        | inl h => exact Or.inl (h ▸ List.mem_cons_self k' _)
        | inr h =>
          cases ihmem x h with
          | inl h2 => exact Or.inl (List.mem_cons_of_mem _ h2)
          | inr h2 => exact Or.inr h2

theorem pathsOfFields_keys_nodup :
    ∀ (fields : List (String × Json)) (acc res : List (String × PathItem)),
      (acc.map Prod.fst).Nodup → pathsOfFields fields acc = Except.ok res →
      (res.map Prod.fst).Nodup := by
  intro fields
  induction fields with
  | nil =>
    intro acc res h heq
    simp only [pathsOfFields, Except.ok.injEq] at heq
    subst heq
    exact h
  | cons hd tl ih =>
    obtain ⟨k, v⟩ := hd
    intro acc res h heq
    by_cases hk : strStartsWith k "/" = true
    · simp only [pathsOfFields, hk, if_true] at heq
      cases hpi : pathItemOfJson v with
      | error e =>
        rw [hpi] at heq
        cases heq
      | ok pi =>
        rw [hpi] at heq
        exact ih _ _ (setAssocP_keys k pi acc h).1 heq
    · simp only [pathsOfFields, hk, Bool.false_eq_true, if_false] at heq
      exact ih _ _ h heq

theorem swaggerUnmarshalJSON_nodup {data : String} {sw : SwaggerDocument}
    {p : SwaggerPaths} (h : swaggerUnmarshalJSON data = Except.ok sw)
    (hp : sw.paths = some p) : (p.paths.map Prod.fst).Nodup := by
  unfold swaggerUnmarshalJSON at h
  split at h
  · cases h
  · rw [Except.ok.injEq] at h
    subst h
    cases hp
  · split at h
    · rw [Except.ok.injEq] at h
      subst h
      cases hp
    · rw [Except.ok.injEq] at h
      subst h
      cases hp
    · rename_i pj hne hlk
      cases hpj : pathsOfJson pj with
      | error e =>
        rw [hpj] at h
        simp only [Except.map] at h
        cases h
      | ok ps =>
        rw [hpj] at h
        simp only [Except.map, Except.ok.injEq] at h
        subst h
        injection hp with hpp
        subst hpp
        cases pj with
        | obj fields2 =>
          simp only [pathsOfJson] at hpj
          cases hpf : pathsOfFields fields2 [] with
          | error e =>
            rw [hpf] at hpj
            simp only [Except.map] at hpj
            cases hpj
          | ok l =>
            rw [hpf] at hpj
            simp only [Except.map, Except.ok.injEq] at hpj
            rw [← hpj]
            exact pathsOfFields_keys_nodup fields2 [] l List.nodup_nil hpf
        | null =>
          simp only [pathsOfJson] at hpj
          cases hpj
        | bool b =>
          simp only [pathsOfJson] at hpj
          cases hpj
        | num n =>
          simp only [pathsOfJson] at hpj
          cases hpj
        | str s =>
          simp only [pathsOfJson] at hpj
          cases hpj
        | arr es =>
          simp only [pathsOfJson] at hpj
          cases hpj
  · cases h

/-- `Mounts` reaching the extraction loop: with resolved bytes, a parsed
document and a non-nil paths pointer, the call returns exactly the
extraction result. -/
theorem mounts_ok_elim {api : AWSServerlessApi} {env : Env} {bytes : String}
    {sw : SwaggerDocument} {p : SwaggerPaths} {ms : List ServerlessRouterMount}
    (hsw : api.Swagger env = Except.ok bytes)
    (hparse : swaggerUnmarshalJSON bytes = Except.ok sw)
    (hpaths : sw.paths = some p)
    (hok : api.Mounts env = MountsResult.ok ms) :
    extractMounts p.paths = Except.ok ms := by
  unfold AWSServerlessApi.Mounts at hok
  simp only [hsw, hparse, hpaths] at hok
  cases hex : extractMounts p.paths with
  | error e =>
    simp only [hex] at hok
    cases hok
  | ok m =>
    simp only [hex, MountsResult.ok.injEq] at hok
    rw [hok]

/-!
## Concrete resources used by the evaluations
-/

/-- A resolution environment with no local files and no object storage;
inline definition sources never consult it. -/
def env0 : Env :=
  ⟨fun _ => Except.error "no such file", fun _ _ _ => Except.error "no network"⟩

/-- A resource whose definition is supplied as inline JSON text. -/
def inlineApi (s : String) : AWSServerlessApi :=
  ⟨none, some (Json.str s)⟩

/-- Inline definition with one path carrying an explicit GET integration
and a path-level any-method integration (the spec §8 `/users` scenario). -/
def exampleBytes : String :=
  "\x7b\"paths\":\x7b\"/users\":\x7b\"get\":\x7b\"x-amazon-apigateway-integration\":\x7b\"uri\":\"fn-list-users\"\x7d\x7d,\"x-amazon-apigateway-any-method\":\x7b\"x-amazon-apigateway-integration\":\x7b\"uri\":\"fn-catch-all\"\x7d\x7d\x7d\x7d\x7d"

/-- The path item the document parser produces for `/users` in
`exampleBytes`. -/
def examplePathItem : PathItem :=
  ⟨some ⟨[("x-amazon-apigateway-integration",
      Json.obj [("uri", Json.str "fn-list-users")])]⟩,
   none, none, none, none, none, none,
   [("x-amazon-apigateway-any-method",
     Json.obj [("x-amazon-apigateway-integration",
       Json.obj [("uri", Json.str "fn-catch-all")])])]⟩

/-- The parsed path map of `exampleBytes`. -/
def examplePaths : SwaggerPaths := ⟨[("/users", examplePathItem)]⟩

/-- The parsed document of `exampleBytes`. -/
def exampleDoc : SwaggerDocument := ⟨some examplePaths⟩

/-- The any-method extension payload of `/users` in `exampleBytes`. -/
def examplePayload : Json :=
  Json.obj [("x-amazon-apigateway-integration",
    Json.obj [("uri", Json.str "fn-catch-all")])]

/-- The `/users` resource. -/
def exampleApi : AWSServerlessApi := inlineApi exampleBytes

/-- The mounts `Mounts` returns for `exampleApi`: the explicit GET mount
followed by the six wildcard-derived mounts. -/
def exampleMounts : List ServerlessRouterMount :=
  [⟨"/users", "/users", "get", some "fn-list-users"⟩,
   ⟨"/users", "/users", "post", some "fn-catch-all"⟩,
   ⟨"/users", "/users", "put", some "fn-catch-all"⟩,
   ⟨"/users", "/users", "delete", some "fn-catch-all"⟩,
   ⟨"/users", "/users", "patch", some "fn-catch-all"⟩,
   ⟨"/users", "/users", "head", some "fn-catch-all"⟩,
   ⟨"/users", "/users", "options", some "fn-catch-all"⟩]

/-- Inline definition whose `/p` path has an any-method payload that is a
string, which cannot unmarshal into `ApiGatewayAnyMethod`. -/
def c4Bytes : String :=
  "\x7b\"paths\":\x7b\"/p\":\x7b\"x-amazon-apigateway-any-method\":\"bad\"\x7d\x7d\x7d"

/-- The path item the document parser produces for `/p` in `c4Bytes`. -/
def c4PathItem : PathItem :=
  ⟨none, none, none, none, none, none, none,
   [("x-amazon-apigateway-any-method", Json.str "bad")]⟩

/-- Inline definition with a GET operation carrying no integration
extension plus a path-level any-method integration. -/
def c5Bytes : String :=
  "\x7b\"paths\":\x7b\"/p\":\x7b\"get\":\x7b\"summary\":\"s\"\x7d,\"x-amazon-apigateway-any-method\":\x7b\"x-amazon-apigateway-integration\":\x7b\"uri\":\"fn\"\x7d\x7d\x7d\x7d\x7d"

/-- The path item the document parser produces for `/p` in `c5Bytes`:
the GET operation is present but has no vendor extensions. -/
def c5PathItem : PathItem :=
  ⟨some ⟨[]⟩, none, none, none, none, none, none,
   [("x-amazon-apigateway-any-method",
     Json.obj [("x-amazon-apigateway-integration",
       Json.obj [("uri", Json.str "fn")])])]⟩

/-- The mounts `Mounts` returns for `c5Bytes`: the wildcard fills all
seven methods, including GET. -/
def c5Mounts : List ServerlessRouterMount :=
  [⟨"/p", "/p", "get", some "fn"⟩,
   ⟨"/p", "/p", "post", some "fn"⟩,
   ⟨"/p", "/p", "put", some "fn"⟩,
   ⟨"/p", "/p", "delete", some "fn"⟩,
   ⟨"/p", "/p", "patch", some "fn"⟩,
   ⟨"/p", "/p", "head", some "fn"⟩,
   ⟨"/p", "/p", "options", some "fn"⟩]

/-- Inline definition with a lone GET operation carrying no integration
extension and no any-method extension. -/
def c5wBytes : String :=
  "\x7b\"paths\":\x7b\"/q\":\x7b\"get\":\x7b\"summary\":\"s\"\x7d\x7d\x7d\x7d"

/-- The path item parsed for `/q` in `c5wBytes`. -/
def c5wPathItem : PathItem :=
  ⟨some ⟨[]⟩, none, none, none, none, none, none, []⟩

/-- Inline definition whose GET operation carries an integration
extension whose payload is a string, which cannot unmarshal into
`ApiGatewayIntegration`. -/
def c7Bytes : String :=
  "\x7b\"paths\":\x7b\"/p\":\x7b\"get\":\x7b\"x-amazon-apigateway-integration\":\"oops\"\x7d\x7d\x7d\x7d"

/-- The path item parsed for `/p` in `c7Bytes`. -/
def c7PathItem : PathItem :=
  ⟨some ⟨[("x-amazon-apigateway-integration", Json.str "oops")]⟩,
   none, none, none, none, none, none, []⟩

/-- No populated definition-URI source: either the pointer is nil, or
both of its variants are nil. -/
def uriAbsent (api : AWSServerlessApi) : Prop :=
  api.DefinitionUri = none ∨
    ∃ du, api.DefinitionUri = some du ∧
      du.String = none ∧ du.S3Location = none

/-!
## Claims
-/

/-- Claim C3 (code defect): the claim states that a resource whose
definition source is the inline text `"{}"` resolves successfully to an
empty mount list.  The code instead crashes: `spec.Swagger.UnmarshalJSON`
leaves the `*spec.Paths` pointer nil when the document has no `paths`
key, and `Mounts` dereferences `swagger.Paths.Paths` at api.go line 51
without a nil check, a Go nil-pointer-dereference panic. -/
theorem c3_empty_inline_crashes :
    (inlineApi "\x7b\x7d").Mounts env0 =
      MountsResult.crash
        "runtime error: invalid memory address or nil pointer dereference" :=
  rfl

/-- Claim C4 counterexample: the claim states that a failure to parse a
path's any-method payload is non-fatal and merely skips that path's
wildcard mounts.  On a document whose `/p` any-method payload is the
string `"bad"` — which parses as a document but fails to unmarshal into
`ApiGatewayAnyMethod` — `Mounts` returns an error for the whole
resolution (api.go lines 91–93) instead of skipping and returning the
remaining mounts. -/
theorem c4_counterexample :
    swaggerUnmarshalJSON c4Bytes = Except.ok ⟨some ⟨[("/p", c4PathItem)]⟩⟩ ∧
    jsonLookup c4PathItem.extensions apiGatewayAnyMethodExtension =
      some (Json.str "bad") ∧
    (inlineApi c4Bytes).Mounts env0 =
      MountsResult.err "Could not unmarshal any method josn to object model" :=
  ⟨rfl, rfl, rfl⟩

/-- Claim C4 as amended: when a path's any-method extension payload fails
to unmarshal into the wildcard object model, the failure is fatal to the
whole resolution — `Mounts` returns the unmarshal error instead of the
mounts extracted from the rest of the document. -/
theorem c4_anyMethod_unmarshal_failure_is_fatal (api : AWSServerlessApi)
    (env : Env) (bytes : String) (sw : SwaggerDocument) (p : SwaggerPaths)
    (path : String) (pi : PathItem) (payload : Json) (em : String)
    (hsw : api.Swagger env = Except.ok bytes)
    (hparse : swaggerUnmarshalJSON bytes = Except.ok sw)
    (hpaths : sw.paths = some p)
    (hmem : (path, pi) ∈ p.paths)
    (hany : jsonLookup pi.extensions apiGatewayAnyMethodExtension = some payload)
    (hbad : unmarshalAnyMethod payload = Except.error em) :
    api.Mounts env =
      MountsResult.err "Could not unmarshal any method josn to object model" := by
  have hex := extractMounts_error_of_bad hmem hany hbad
  unfold AWSServerlessApi.Mounts
  simp only [hsw, hparse, hpaths, hex]

/-- Witness for C4's amended theorem at the `c4Bytes` resource. -/
theorem c4_witness :
    unmarshalAnyMethod (Json.str "bad") =
      Except.error "cannot unmarshal value into ApiGatewayAnyMethod" ∧
    (inlineApi c4Bytes).Mounts env0 =
      MountsResult.err "Could not unmarshal any method josn to object model" :=
  ⟨rfl,
   c4_anyMethod_unmarshal_failure_is_fatal (inlineApi c4Bytes) env0 c4Bytes
     ⟨some ⟨[("/p", c4PathItem)]⟩⟩ ⟨[("/p", c4PathItem)]⟩ "/p" c4PathItem
     (Json.str "bad") "cannot unmarshal value into ApiGatewayAnyMethod"
     rfl rfl rfl (List.Mem.head _) rfl rfl⟩

/-- Claim C5 counterexample: the claim states that an operation without
the integration extension produces no mount for its (path, method) pair.
In `c5Bytes` the `/p` GET operation is present and carries no integration
extension, yet the output contains a mount for (`/p`, `get`), produced by
the path-level any-method wildcard, because a method without an
integration extension is not marked as mapped. -/
theorem c5_counterexample :
    swaggerUnmarshalJSON c5Bytes = Except.ok ⟨some ⟨[("/p", c5PathItem)]⟩⟩ ∧
    pathItemOp c5PathItem "get" = some ⟨[]⟩ ∧
    jsonLookup (Operation.extensions ⟨[]⟩) apiGatewayIntegrationExtension =
      none ∧
    (inlineApi c5Bytes).Mounts env0 = MountsResult.ok c5Mounts ∧
    (⟨"/p", "/p", "get", some "fn"⟩ : ServerlessRouterMount) ∈ c5Mounts ∧
    (⟨"/p", "/p", "get", some "fn"⟩ : ServerlessRouterMount).Path = "/p" ∧
    (⟨"/p", "/p", "get", some "fn"⟩ : ServerlessRouterMount).Method = "get" :=
  ⟨rfl, rfl, rfl, rfl, List.Mem.head _, rfl, rfl⟩

/-- Claim C5 as amended: an operation present without the integration
extension produces no mount in the per-method pass (its method is not
marked mapped), and when the path carries no any-method extension either,
no mount for that (path, method) pair appears in the output of `Mounts`
at all. -/
theorem c5_no_mount_without_wildcard (api : AWSServerlessApi) (env : Env)
    (bytes : String) (sw : SwaggerDocument) (p : SwaggerPaths) (path : String)
    (pi : PathItem) (m : String) (op : Operation)
    (ms : List ServerlessRouterMount)
    (hsw : api.Swagger env = Except.ok bytes)
    (hparse : swaggerUnmarshalJSON bytes = Except.ok sw)
    (hpaths : sw.paths = some p)
    (hmem : (path, pi) ∈ p.paths)
    (hm : m ∈ HttpMethods)
    (hop : pathItemOp pi (strToLower m) = some op)
    (hext : jsonLookup op.extensions apiGatewayIntegrationExtension = none ∨
      jsonLookup op.extensions apiGatewayIntegrationExtension = some Json.null)
    (hany : jsonLookup pi.extensions apiGatewayAnyMethodExtension = none)
    (hok : api.Mounts env = MountsResult.ok ms) :
    methodMount path pi m = none ∧
    ∀ w ∈ ms, ¬(w.Path = path ∧ w.Method = strToLower m) := by
  have hnd : (p.paths.map Prod.fst).Nodup :=
    swaggerUnmarshalJSON_nodup hparse hpaths
  have hex := mounts_ok_elim hsw hparse hpaths hok
  have hmn := @methodMount_none path pi m op hop hext
  refine ⟨hmn, ?_⟩
  intro w hw hc
  obtain ⟨q, qi, ws, hmem2, hpm2, hw2⟩ := mem_extractMounts_ok hex hw
  have hwP : w.Path = q := (pathMounts_ok_props hpm2).1 w hw2
  have hq : q = path := by rw [← hwP, hc.1]
  subst hq
  have hqi : qi = pi := assoc_unique hnd hmem2 hmem
  subst hqi
  obtain ⟨wild, hwild, hws⟩ := pathMounts_ok_elim hpm2
  rw [anyMethodMounts_none hany, Except.ok.injEq] at hwild
  rw [hws, ← hwild, List.append_nil] at hw2
  obtain ⟨m2, hm2, hmm2⟩ := List.mem_filterMap.mp hw2
  have hml := (methodMount_eq_some hmm2).2
  have hmeq : m2 = m :=
    strToLower_inj_on_HttpMethods m2 hm2 m hm (by rw [← hml, hc.2])
  subst hmeq
  rw [hmn] at hmm2
  cases hmm2

/-- Witness for C5's amended theorem at the `c5wBytes` resource: the GET
operation of `/q` has no integration extension, the path has no
any-method extension, and the output is empty. -/
theorem c5_witness :
    (inlineApi c5wBytes).Mounts env0 = MountsResult.ok [] ∧
    methodMount "/q" c5wPathItem "GET" = none ∧
    (∀ w ∈ ([] : List ServerlessRouterMount),
      ¬(w.Path = "/q" ∧ w.Method = strToLower "GET")) :=
  ⟨rfl,
   (c5_no_mount_without_wildcard (inlineApi c5wBytes) env0 c5wBytes
     ⟨some ⟨[("/q", c5wPathItem)]⟩⟩ ⟨[("/q", c5wPathItem)]⟩ "/q" c5wPathItem
     "GET" ⟨[]⟩ [] rfl rfl rfl (List.Mem.head _) (by decide) rfl (Or.inl rfl)
     rfl rfl).1,
   (c5_no_mount_without_wildcard (inlineApi c5wBytes) env0 c5wBytes
     ⟨some ⟨[("/q", c5wPathItem)]⟩⟩ ⟨[("/q", c5wPathItem)]⟩ "/q" c5wPathItem
     "GET" ⟨[]⟩ [] rfl rfl rfl (List.Mem.head _) (by decide) rfl (Or.inl rfl)
     rfl rfl).2⟩

/-- Claim C1: for every path of a parsed document that carries the
any-method extension, a successful `Mounts` call emits exactly
`7 − N` wildcard-derived mounts for that path, where `N` is the number of
methods mapped by the per-method pass — one mount per supported method
not explicitly mapped, built from the wildcard's integration settings —
and never a wildcard mount for an explicitly mapped method. -/
theorem c1_anyMethod_fills_gaps (api : AWSServerlessApi) (env : Env)
    (bytes : String) (sw : SwaggerDocument) (p : SwaggerPaths) (path : String)
    (pi : PathItem) (payload : Json) (ms : List ServerlessRouterMount)
    (hsw : api.Swagger env = Except.ok bytes)
    (hparse : swaggerUnmarshalJSON bytes = Except.ok sw)
    (hpaths : sw.paths = some p)
    (hmem : (path, pi) ∈ p.paths)
    (hany : jsonLookup pi.extensions apiGatewayAnyMethodExtension = some payload)
    (hok : api.Mounts env = MountsResult.ok ms) :
    ∃ amo wild, unmarshalAnyMethod payload = Except.ok amo ∧
      anyMethodMounts path pi = Except.ok wild ∧
      wild = (HttpMethods.filter (fun m => (methodMount path pi m).isNone)).map
        (fun m => createMount path (strToLower m)
          (parseIntegrationSettings amo.IntegrationSettings)) ∧
      wild.length + (explicitMounts path pi).length = 7 ∧
      (∀ m ∈ HttpMethods, (methodMount path pi m).isSome = true →
        ∀ w ∈ wild, w.Method ≠ strToLower m) ∧
      (∀ w ∈ wild, w ∈ ms) := by
  have hex := mounts_ok_elim hsw hparse hpaths hok
  obtain ⟨ws, hpm, hsub⟩ := extractMounts_ok_of_mem hex hmem
  obtain ⟨wild, hwild, hws⟩ := pathMounts_ok_elim hpm
  obtain ⟨amo, hamo, hshape⟩ := anyMethodMounts_ok_shape hany hwild
  refine ⟨amo, wild, hamo, hwild, hshape, ?_, ?_, ?_⟩
  · rw [hshape, List.length_map]
    have hcount := length_filterMap_add_none (methodMount path pi) HttpMethods
    have h7 : HttpMethods.length = 7 := rfl
    unfold explicitMounts
    omega
  · intro m hm hsome w hw
    rw [hshape] at hw
    obtain ⟨m2, hm2, hww⟩ := List.mem_map.mp hw
    have hm2f := List.mem_filter.mp hm2
    intro hMeq
    have hll : strToLower m2 = strToLower m := by
      rw [← hMeq, ← hww]
      exact (createMount_Method _ _ _).symm
    have hmeq : m2 = m := strToLower_inj_on_HttpMethods m2 hm2f.1 m hm hll
    subst hmeq
    rw [Option.isNone_iff_eq_none.mp hm2f.2] at hsome
    cases hsome
  · intro w hw
    apply hsub
    rw [hws]
    exact List.mem_append_right _ hw

/-- Witness for C1 at the spec §8 `/users` scenario: the explicit GET
mapping plus six wildcard mounts. -/
theorem c1_witness :
    jsonLookup examplePathItem.extensions apiGatewayAnyMethodExtension =
      some examplePayload ∧
    exampleApi.Mounts env0 = MountsResult.ok exampleMounts ∧
    (∃ amo wild, unmarshalAnyMethod examplePayload = Except.ok amo ∧
      anyMethodMounts "/users" examplePathItem = Except.ok wild ∧
      wild = (HttpMethods.filter
          (fun m => (methodMount "/users" examplePathItem m).isNone)).map
        (fun m => createMount "/users" (strToLower m)
          (parseIntegrationSettings amo.IntegrationSettings)) ∧
      wild.length + (explicitMounts "/users" examplePathItem).length = 7 ∧
      (∀ m ∈ HttpMethods,
        (methodMount "/users" examplePathItem m).isSome = true →
        ∀ w ∈ wild, w.Method ≠ strToLower m) ∧
      (∀ w ∈ wild, w ∈ exampleMounts)) :=
  ⟨rfl, rfl,
   c1_anyMethod_fills_gaps exampleApi env0 exampleBytes exampleDoc
     examplePaths "/users" examplePathItem examplePayload exampleMounts
     rfl rfl rfl (List.Mem.head _) rfl rfl⟩

/-- Claim C2: for every path and supported method whose operation carries
the (non-null) integration extension, a successful `Mounts` call returns
a mount built by `createMount` from that path, the lowercased method, and
the integration settings parsed from that operation's extension payload;
its `Path` is the path and its `Method` is the lowercased method. -/
theorem c2_explicit_method_mount (api : AWSServerlessApi) (env : Env)
    (bytes : String) (sw : SwaggerDocument) (p : SwaggerPaths) (path : String)
    (pi : PathItem) (m : String) (op : Operation) (payload : Json)
    (ms : List ServerlessRouterMount)
    (hsw : api.Swagger env = Except.ok bytes)
    (hparse : swaggerUnmarshalJSON bytes = Except.ok sw)
    (hpaths : sw.paths = some p)
    (hmem : (path, pi) ∈ p.paths)
    (hm : m ∈ HttpMethods)
    (hop : pathItemOp pi (strToLower m) = some op)
    (hext : jsonLookup op.extensions apiGatewayIntegrationExtension = some payload)
    (hnn : payload ≠ Json.null)
    (hok : api.Mounts env = MountsResult.ok ms) :
    createMount path (strToLower m) (parseIntegrationSettings payload) ∈ ms ∧
    (createMount path (strToLower m)
      (parseIntegrationSettings payload)).Path = path ∧
    (createMount path (strToLower m)
      (parseIntegrationSettings payload)).Method = strToLower m := by
  have hex := mounts_ok_elim hsw hparse hpaths hok
  obtain ⟨ws, hpm, hsub⟩ := extractMounts_ok_of_mem hex hmem
  obtain ⟨wild, hwild, hws⟩ := pathMounts_ok_elim hpm
  have hmm := @methodMount_some_of_ext path pi m op payload hop hext hnn
  refine ⟨?_, rfl, rfl⟩
  apply hsub
  rw [hws]
  apply List.mem_append_left
  exact List.mem_filterMap.mpr ⟨m, hm, hmm⟩

/-- Witness for C2: the `/users` GET operation of `exampleBytes` yields
the mount (`/users`, `get`, `fn-list-users`). -/
theorem c2_witness :
    exampleApi.Mounts env0 = MountsResult.ok exampleMounts ∧
    createMount "/users" (strToLower "GET")
      (parseIntegrationSettings
        (Json.obj [("uri", Json.str "fn-list-users")])) ∈ exampleMounts ∧
    (createMount "/users" (strToLower "GET")
      (parseIntegrationSettings
        (Json.obj [("uri", Json.str "fn-list-users")]))).Path = "/users" ∧
    (createMount "/users" (strToLower "GET")
      (parseIntegrationSettings
        (Json.obj [("uri", Json.str "fn-list-users")]))).Method =
      strToLower "GET" :=
  ⟨rfl,
   (c2_explicit_method_mount exampleApi env0 exampleBytes exampleDoc
     examplePaths "/users" examplePathItem "GET"
     ⟨[("x-amazon-apigateway-integration",
        Json.obj [("uri", Json.str "fn-list-users")])]⟩
     (Json.obj [("uri", Json.str "fn-list-users")]) exampleMounts
     rfl rfl rfl (List.Mem.head _) (by decide) rfl rfl
     (fun h => Json.noConfusion h) rfl).1,
   (c2_explicit_method_mount exampleApi env0 exampleBytes exampleDoc
     examplePaths "/users" examplePathItem "GET"
     ⟨[("x-amazon-apigateway-integration",
        Json.obj [("uri", Json.str "fn-list-users")])]⟩
     (Json.obj [("uri", Json.str "fn-list-users")]) exampleMounts
     rfl rfl rfl (List.Mem.head _) (by decide) rfl rfl
     (fun h => Json.noConfusion h) rfl).2⟩

/-- Claim C6: in the mount list returned by one successful `Mounts` call,
no (Path, Method) pair appears twice. -/
theorem c6_no_duplicate_path_method (api : AWSServerlessApi) (env : Env)
    (ms : List ServerlessRouterMount)
    (hok : api.Mounts env = MountsResult.ok ms) :
    List.Pairwise (fun a b => ¬(a.Path = b.Path ∧ a.Method = b.Method)) ms := by
  unfold AWSServerlessApi.Mounts at hok
  cases hsw : AWSServerlessApi.Swagger api env with
  | error e =>
    simp only [hsw] at hok
    cases hok
  | ok bytes =>
    simp only [hsw] at hok
    cases hparse : swaggerUnmarshalJSON bytes with
    | error e =>
      simp only [hparse] at hok
      cases hok
    | ok sw =>
      simp only [hparse] at hok
      cases hpaths : sw.paths with
      | none =>
        simp only [hpaths] at hok
        cases hok
      | some p =>
        simp only [hpaths] at hok
        cases hex : extractMounts p.paths with
        | error e =>
          simp only [hex] at hok
          cases hok
        | ok m =>
          simp only [hex, MountsResult.ok.injEq] at hok
          subst hok
          exact extractMounts_pairwise
            (swaggerUnmarshalJSON_nodup hparse hpaths) hex

/-- Witness for C6 at the `/users` resource. -/
theorem c6_witness :
    exampleApi.Mounts env0 = MountsResult.ok exampleMounts ∧
    List.Pairwise (fun a b => ¬(a.Path = b.Path ∧ a.Method = b.Method))
      exampleMounts :=
  ⟨rfl, c6_no_duplicate_path_method exampleApi env0 exampleMounts rfl⟩

/-- Claim C7: when an explicit operation's integration payload fails to
decode into `ApiGatewayIntegration`, integration parsing returns nil
without propagating an error, and a successful `Mounts` call still
contains a mount for that path and lowercased method whose handler
reference is empty. -/
theorem c7_malformed_integration_still_mounts (api : AWSServerlessApi)
    (env : Env) (bytes : String) (sw : SwaggerDocument) (p : SwaggerPaths)
    (path : String) (pi : PathItem) (m : String) (op : Operation)
    (payload : Json) (em : String) (ms : List ServerlessRouterMount)
    (hsw : api.Swagger env = Except.ok bytes)
    (hparse : swaggerUnmarshalJSON bytes = Except.ok sw)
    (hpaths : sw.paths = some p)
    (hmem : (path, pi) ∈ p.paths)
    (hm : m ∈ HttpMethods)
    (hop : pathItemOp pi (strToLower m) = some op)
    (hext : jsonLookup op.extensions apiGatewayIntegrationExtension = some payload)
    (hbad : unmarshalApiGatewayIntegration payload = Except.error em)
    (hok : api.Mounts env = MountsResult.ok ms) :
    parseIntegrationSettings payload = none ∧
    createMount path (strToLower m) none ∈ ms ∧
    (createMount path (strToLower m) none).IntegrationArn = none := by
  have hnn : payload ≠ Json.null := by
    intro hc
    subst hc
    cases hbad
  have hpis : parseIntegrationSettings payload = none := by
    simp only [parseIntegrationSettings, hbad]
  have hex := mounts_ok_elim hsw hparse hpaths hok
  obtain ⟨ws, hpm, hsub⟩ := extractMounts_ok_of_mem hex hmem
  obtain ⟨wild, hwild, hws⟩ := pathMounts_ok_elim hpm
  have hmm := @methodMount_some_of_ext path pi m op payload hop hext hnn
  rw [hpis] at hmm
  refine ⟨hpis, ?_, rfl⟩
  apply hsub
  rw [hws]
  apply List.mem_append_left
  exact List.mem_filterMap.mpr ⟨m, hm, hmm⟩

/-- Witness for C7 at the `c7Bytes` resource: the string payload fails
to decode and the GET mount is still emitted with an empty handler. -/
theorem c7_witness :
    unmarshalApiGatewayIntegration (Json.str "oops") =
      Except.error "cannot unmarshal value into ApiGatewayIntegration" ∧
    (inlineApi c7Bytes).Mounts env0 =
      MountsResult.ok [createMount "/p" "get" none] ∧
    parseIntegrationSettings (Json.str "oops") = none ∧
    createMount "/p" (strToLower "GET") none ∈ [createMount "/p" "get" none] ∧
    (createMount "/p" (strToLower "GET") none).IntegrationArn = none :=
  ⟨rfl, rfl,
   (c7_malformed_integration_still_mounts (inlineApi c7Bytes) env0 c7Bytes
     ⟨some ⟨[("/p", c7PathItem)]⟩⟩ ⟨[("/p", c7PathItem)]⟩ "/p" c7PathItem
     "GET" ⟨[("x-amazon-apigateway-integration", Json.str "oops")]⟩
     (Json.str "oops") "cannot unmarshal value into ApiGatewayIntegration"
     [createMount "/p" "get" none]
     rfl rfl rfl (List.Mem.head _) (by decide) rfl rfl rfl rfl).1,
   (c7_malformed_integration_still_mounts (inlineApi c7Bytes) env0 c7Bytes
     ⟨some ⟨[("/p", c7PathItem)]⟩⟩ ⟨[("/p", c7PathItem)]⟩ "/p" c7PathItem
     "GET" ⟨[("x-amazon-apigateway-integration", Json.str "oops")]⟩
     (Json.str "oops") "cannot unmarshal value into ApiGatewayIntegration"
     [createMount "/p" "get" none]
     rfl rfl rfl (List.Mem.head _) (by decide) rfl rfl rfl rfl).2.1,
   (c7_malformed_integration_still_mounts (inlineApi c7Bytes) env0 c7Bytes
     ⟨some ⟨[("/p", c7PathItem)]⟩⟩ ⟨[("/p", c7PathItem)]⟩ "/p" c7PathItem
     "GET" ⟨[("x-amazon-apigateway-integration", Json.str "oops")]⟩
     (Json.str "oops") "cannot unmarshal value into ApiGatewayIntegration"
     [createMount "/p" "get" none]
     rfl rfl rfl (List.Mem.head _) (by decide) rfl rfl rfl rfl).2.2⟩

/-- Claim C8: `Swagger` checks the four definition sources in the fixed
order — definition URI as string, definition URI as S3 location, inline
text body, inline mapping body — and uses the first populated variant;
in particular a populated URI string wins regardless of the body. -/
theorem c8_source_precedence (api : AWSServerlessApi) (env : Env) :
    (∀ du uri, api.DefinitionUri = some du → du.String = some uri →
      api.Swagger env = getSwaggerFromURI env uri) ∧
    (∀ du loc, api.DefinitionUri = some du → du.String = none →
      du.S3Location = some loc →
      api.Swagger env = getSwaggerFromS3Location env loc) ∧
    (∀ s, uriAbsent api → api.DefinitionBody = some (Json.str s) →
      api.Swagger env = getSwaggerFromString s) ∧
    (∀ fields, uriAbsent api → api.DefinitionBody = some (Json.obj fields) →
      api.Swagger env = getSwaggerFromMap fields) := by
  refine ⟨?_, ?_, ?_, ?_⟩
  · intro du uri hdu hs
    unfold AWSServerlessApi.Swagger
    simp only [hdu, hs]
  · intro du loc hdu hs hl
    unfold AWSServerlessApi.Swagger
    simp only [hdu, hs, hl]
  · intro s hua hb
    unfold AWSServerlessApi.Swagger
    cases hua with
    | inl h => simp only [h, hb]
    | inr h =>
      obtain ⟨du, h1, h2, h3⟩ := h
      simp only [h1, h2, h3, hb]
  · intro fields hua hb
    unfold AWSServerlessApi.Swagger
    cases hua with
    | inl h => simp only [h, hb]
    | inr h =>
      obtain ⟨du, h1, h2, h3⟩ := h
      simp only [h1, h2, h3, hb]

/-- Witness for C8: a resource with both a URI string and an inline text
body resolves through the local-URI reader. -/
theorem c8_witness :
    (⟨some ⟨some "swagger.json", none⟩,
      some (Json.str "ignored")⟩ : AWSServerlessApi).DefinitionBody =
      some (Json.str "ignored") ∧
    (⟨some ⟨some "swagger.json", none⟩,
      some (Json.str "ignored")⟩ : AWSServerlessApi).Swagger env0 =
      getSwaggerFromURI env0 "swagger.json" :=
  ⟨rfl,
   (c8_source_precedence
     ⟨some ⟨some "swagger.json", none⟩, some (Json.str "ignored")⟩ env0).1
     ⟨some "swagger.json", none⟩ "swagger.json" rfl rfl⟩

/-- Claim C9: with no populated definition source at all, `Swagger` fails
with the "no swagger definition found" error and `Mounts` returns that
error and no mounts. -/
theorem c9_no_definition_error (api : AWSServerlessApi) (env : Env)
    (huri : uriAbsent api) (hbody : api.DefinitionBody = none) :
    api.Swagger env = Except.error "no swagger definition found" ∧
    api.Mounts env = MountsResult.err "no swagger definition found" := by
  have hs : api.Swagger env = Except.error "no swagger definition found" := by
    unfold AWSServerlessApi.Swagger
    cases huri with
    | inl h => simp only [h, hbody]
    | inr h =>
      obtain ⟨du, h1, h2, h3⟩ := h
      simp only [h1, h2, h3, hbody]
  refine ⟨hs, ?_⟩
  unfold AWSServerlessApi.Mounts
  simp only [hs]

/-- Witness for C9 at the resource with neither a definition URI nor a
definition body. -/
theorem c9_witness :
    (⟨none, none⟩ : AWSServerlessApi).Swagger env0 =
      Except.error "no swagger definition found" ∧
    (⟨none, none⟩ : AWSServerlessApi).Mounts env0 =
      MountsResult.err "no swagger definition found" :=
  c9_no_definition_error ⟨none, none⟩ env0 (Or.inl rfl) rfl

/-- Claim C10: a populated definition body that is neither a string nor a
string-keyed mapping (with the definition URI absent or having neither of
its two forms set) falls through every source check, and resolution fails
with the "no swagger definition found" error. -/
theorem c10_body_wrong_shape_error (api : AWSServerlessApi) (env : Env)
    (j : Json) (huri : uriAbsent api) (hbody : api.DefinitionBody = some j)
    (hstr : ∀ s, j ≠ Json.str s) (hobj : ∀ fields, j ≠ Json.obj fields) :
    api.Swagger env = Except.error "no swagger definition found" ∧
    api.Mounts env = MountsResult.err "no swagger definition found" := by
  have hs : api.Swagger env = Except.error "no swagger definition found" := by
    unfold AWSServerlessApi.Swagger
    cases huri with
    | inl h =>
      cases j with
      | str s => exact absurd rfl (hstr s)
      | obj fields => exact absurd rfl (hobj fields)
      | null => simp only [h, hbody]
      | bool b => simp only [h, hbody]
      | num n => simp only [h, hbody]
      | arr es => simp only [h, hbody]
    | inr h =>
      obtain ⟨du, h1, h2, h3⟩ := h
      cases j with
      | str s => exact absurd rfl (hstr s)
      | obj fields => exact absurd rfl (hobj fields)
      | null => simp only [h1, h2, h3, hbody]
      | bool b => simp only [h1, h2, h3, hbody]
      | num n => simp only [h1, h2, h3, hbody]
      | arr es => simp only [h1, h2, h3, hbody]
  refine ⟨hs, ?_⟩
  unfold AWSServerlessApi.Mounts
  simp only [hs]

/-- Witness for C10: a definition-URI object with neither form set plus
an array-valued body fall through to the "no definition found" error. -/
theorem c10_witness :
    (⟨some ⟨none, none⟩, some (Json.arr [])⟩ : AWSServerlessApi).Swagger env0 =
      Except.error "no swagger definition found" ∧
    (⟨some ⟨none, none⟩, some (Json.arr [])⟩ : AWSServerlessApi).Mounts env0 =
      MountsResult.err "no swagger definition found" :=
  c10_body_wrong_shape_error ⟨some ⟨none, none⟩, some (Json.arr [])⟩ env0
    (Json.arr []) (Or.inr ⟨⟨none, none⟩, rfl, rfl, rfl⟩) rfl
    (fun _ h => Json.noConfusion h) (fun _ h => Json.noConfusion h)

end Router
